import Mathlib

/-!
Shallow embedding of the `ed` line-editor (src/main.rs): the input scanner,
the address and command parsers, the address resolver and the editor state
machine, together with theorems checking the specification's claims.

Strings are embedded as `List Char` (the Rust scanner walks `char_indices`,
and every slice it takes falls on a character boundary, so a character-level
model is faithful).  Rust panics (the `unreachable!` in `Command::parse`,
out-of-order slice indexing, `Vec::insert` past the end) are modelled
explicitly by the `panic` constructor of `POutcome`; recoverable
`Result::Err` values are the `err` constructor.  File-system access is a
parameter (`FS`).  `char::is_whitespace` is modelled by `Char.isWhitespace`
(the ASCII cases; no claim involves non-ASCII whitespace).
-/

/-- Outcome of a fallible computation that may also panic (Rust `Result`
plus process aborts). -/
inductive POutcome (α : Type) where
  | ok (a : α)
  | err (e : String)
  | panic (msg : String)
deriving DecidableEq, Repr

/-- `usize::MAX` on a 64-bit target. -/
def USIZE_MAX : Nat := 2 ^ 64 - 1

/-- `Mode` from src/main.rs. -/
inductive Mode where
  | command
  | insert
deriving DecidableEq, Repr

/-- `AddressToken` from src/main.rs. -/
inductive AddressToken where
  | dollar
  | number (n : Nat)
deriving DecidableEq, Repr

/-- `Address` from src/main.rs. -/
inductive Address where
  | single (t : AddressToken)
  | range (start «end» : AddressToken)
deriving DecidableEq, Repr

/-- `CommandToken` from src/main.rs.  Path arguments are the borrowed
sub-slices of the input line. -/
inductive CommandToken where
  | printAndSet
  | print
  | edit (path : Option (List Char))
  | write (path : Option (List Char))
  | append
  | insert
  | change
  | delete
deriving DecidableEq, Repr

/-- `Command` from src/main.rs. -/
structure Command where
  address : Option Address
  kind : CommandToken
deriving DecidableEq, Repr

/-- `struct Editor` from src/main.rs. -/
structure Editor where
  current_address : Nat
  lines : List (List Char)
  default_filename : Option (List Char)
  mode : Mode
deriving DecidableEq, Repr

/-- The digit run `str.parse::<usize>()` of `AddressToken::parse`, folded
left over the decimal digits. -/
def digitsToNat (l : List Char) : Nat :=
  l.foldl (fun n c => n * 10 + (c.toNat - '0'.toNat)) 0

/-- `AddressToken::parse`: peek one character; `$` is the symbolic last
line, a digit starts a maximal decimal run, anything else leaves the stream
untouched and yields no token.  `str.parse::<usize>()` fails exactly on
numeric overflow. -/
def AddressToken.parse (s : List Char) :
    Except String (Option AddressToken × List Char) :=
  match s with
  | [] => .ok (none, [])
  | c :: rest =>
    if c = '$' then .ok (some .dollar, rest)
    else if c.isDigit then
      let digits := c :: rest.takeWhile Char.isDigit
      let rest := rest.dropWhile Char.isDigit
      let number := digitsToNat digits
      if number ≤ USIZE_MAX then .ok (some (.number number), rest)
      else .error "Failed to parse numeric address"
    else .ok (none, c :: rest)

/-- `Address::parse`: `token (',' token?)?`; a trailing comma degrades to a
single address. -/
def Address.parse (s : List Char) :
    Except String (Option Address × List Char) := do
  let (start?, s) ← AddressToken.parse s
  match start? with
  | none => .ok (none, s)
  | some start =>
    match s with
    | ',' :: s2 => do
      let (end?, s3) ← AddressToken.parse s2
      match end? with
      | none => .ok (some (.single start), s3)
      | some e => .ok (some (.range start e), s3)
    | _ => .ok (some (.single start), s)

/-- The `swallow` closure of `CommandToken::parse`: at end of input there is
no argument; a non-whitespace character is an error; otherwise all leading
whitespace is consumed and the remainder of the line (which must be
non-empty) is the argument, the stream ending exhausted. -/
def swallow (s : List Char) : Except String (Option (List Char) × List Char) :=
  match s with
  | [] => .ok (none, [])
  | c :: rest =>
    if c.isWhitespace then
      match rest.dropWhile Char.isWhitespace with
      | [] => .error "Missing argument for command"
      | arg => .ok (some arg, [])
    else .error "Expected space after command"

/-- `CommandToken::parse`: one verb character, then for `e`/`w` the
`swallow`ed path argument. -/
def CommandToken.parse (s : List Char) :
    Except String (CommandToken × List Char) :=
  match s with
  | [] => .ok (.printAndSet, [])
  | c :: rest =>
    if c = 'p' then .ok (.print, rest)
    else if c = 'e' then do
      let (p, s2) ← swallow rest
      .ok (.edit p, s2)
    else if c = 'w' then do
      let (p, s2) ← swallow rest
      .ok (.write p, s2)
    else if c = 'a' then .ok (.append, rest)
    else if c = 'i' then .ok (.insert, rest)
    else if c = 'c' then .ok (.change, rest)
    else if c = 'd' then .ok (.delete, rest)
    else .error "Unknown command"

/-- `Command::parse`: address, then verb; if any characters remain the Rust
code hits `unreachable!`, i.e. the process panics. -/
def Command.parse (input : List Char) : POutcome Command :=
  match Address.parse input with
  | .error e => .err e
  | .ok (address, s) =>
    match CommandToken.parse s with
    | .error e => .err e
    | .ok (kind, s2) =>
      match s2 with
      | [] => .ok ⟨address, kind⟩
      | _ :: _ => .panic "Entire stream should be consumed on successful parsed"

/-- The file system seen by the editor: `read path` is the line list
produced by `File::open` + `BufReader::lines` (`none` models an open
failure), `writeOk path` tells whether `fs::write` succeeds. -/
structure FS where
  read : List Char → Option (List (List Char))
  writeOk : List Char → Bool

/-- Observable side effects of one command: `println!` of a line of text,
`println!` of a number, and `fs::write`. -/
inductive Event where
  | out (s : List Char)
  | outNum (n : Nat)
  | fsWrite (path contents : List Char)
deriving DecidableEq, Repr

/-- Rust slice indexing `l[s..=e]`: `s..=e` is the half-open `s..e+1`,
which panics (`none`) unless `s ≤ e + 1 ≤ l.length`. -/
def sliceInclusive (l : List α) (s e : Nat) : Option (List α) :=
  if s ≤ e + 1 ∧ e + 1 ≤ l.length then some ((l.drop s).take (e + 1 - s))
  else none

/-- `Vec::drain(s..=e)` keeps everything outside the slice; same panic
condition as slice indexing. -/
def drainInclusive (l : List α) (s e : Nat) : Option (List α) :=
  if s ≤ e + 1 ∧ e + 1 ≤ l.length then some (l.take s ++ l.drop (e + 1))
  else none

/-- UTF-8 byte length of a string, the `String::len` printed by the Write
arm. -/
def utf8Len (l : List Char) : Nat := (l.map Char.utf8Size).sum

/-- `Editor::from_file`, with the file system as a parameter.  The
diagnostic size line printed from the file metadata is external reporting
and is not modelled. -/
def Editor.from_file (fs : FS) (path : List Char) : Except String Editor :=
  match fs.read path with
  | none => .error "Failed to open file"
  | some lines =>
    .ok { current_address := lines.length
          lines := lines
          default_filename := some path
          mode := .command }

/-- `Editor::blank`. -/
def Editor.blank : Editor :=
  { current_address := 1, lines := [], default_filename := none,
    mode := .command }

/-- `Editor::resolve_address_token`. -/
def Editor.resolve_address_token (e : Editor) : AddressToken → Nat
  | .dollar => e.lines.length
  | .number n => n

/-- The endpoint validation and 1-based → 0-based conversion at the end of
`Editor::resolve_address`. -/
def Editor.validate_pair (e : Editor) (p : Nat × Nat) :
    Except String (Nat × Nat) :=
  if p.1 ≠ 0 ∧ p.1 ≤ e.lines.length ∧ p.2 ≠ 0 ∧ p.2 ≤ e.lines.length then
    .ok (p.1 - 1, p.2 - 1)
  else .error "Out of bounds"

/-- `Editor::resolve_address`: default ranges per command kind when no
address is given (`Edit` returns the unvalidated `usize::MAX..=usize::MAX`
sentinel), explicit single/range tokens otherwise, then validation. -/
def Editor.resolve_address (e : Editor) (c : Command) :
    Except String (Nat × Nat) :=
  match c.address with
  | none =>
    match c.kind with
    | .printAndSet =>
      e.validate_pair (e.current_address + 1, e.current_address + 1)
    | .print => e.validate_pair (e.current_address, e.current_address)
    | .edit _ => .ok (USIZE_MAX, USIZE_MAX)
    | .write _ => e.validate_pair (1, e.lines.length)
    | .append => e.validate_pair (e.current_address, e.current_address)
    | .insert => e.validate_pair (e.current_address, e.current_address)
    | .change => e.validate_pair (e.current_address, e.current_address)
    | .delete => e.validate_pair (e.current_address, e.current_address)
  | some (.single t) =>
    let s := e.resolve_address_token t
    e.validate_pair (s, s)
  | some (.range s t) =>
    e.validate_pair (e.resolve_address_token s, e.resolve_address_token t)

/-- `Editor::execute`.  The resolved range `(s0, e0)` is 0-based inclusive.
Indexing and draining panic exactly where the Rust slice operations do. -/
def Editor.execute (fs : FS) (e : Editor) (c : Command) :
    POutcome (Editor × List Event) :=
  match e.resolve_address c with
  | .error msg => .err msg
  | .ok (s0, e0) =>
    match c.kind with
    | .printAndSet =>
      match e.lines[s0]? with
      | none => .panic "index out of bounds"
      | some line =>
        .ok ({ e with current_address := e0 + 1 }, [.out line])
    | .print =>
      match sliceInclusive e.lines s0 e0 with
      | none => .panic "slice index out of bounds"
      | some sel =>
        .ok ({ e with current_address := e0 + 1 },
             [.out (List.intercalate ['\n'] sel)])
    | .edit path? =>
      match path?.orElse (fun _ => e.default_filename) with
      | none => .err "Missing path to write"
      | some path =>
        match Editor.from_file fs path with
        | .error msg => .err msg
        | .ok e2 => .ok (e2, [])
    | .write path? =>
      match path?.orElse (fun _ => e.default_filename) with
      | none => .err "Missing path to write"
      | some path =>
        match sliceInclusive e.lines s0 e0 with
        | none => .panic "slice index out of bounds"
        | some sel =>
          let joined := List.intercalate ['\n'] sel
          let contents :=
            if joined.getLast? = some '\n' then joined else joined ++ ['\n']
          if fs.writeOk path then
            .ok ({ e with default_filename := some path },
                 [.fsWrite path contents, .outNum (utf8Len contents)])
          else .err "Failed to write file to disk"
    | .append =>
      .ok ({ e with current_address := s0 + 1, mode := .insert }, [])
    | .insert =>
      .ok ({ e with current_address := s0, mode := .insert }, [])
    | .change =>
      match drainInclusive e.lines s0 e0 with
      | none => .panic "slice index out of bounds"
      | some l2 =>
        .ok ({ e with current_address := s0, lines := l2, mode := .insert },
             [])
    | .delete =>
      match drainInclusive e.lines s0 e0 with
      | none => .panic "slice index out of bounds"
      | some l2 =>
        .ok ({ e with current_address := e0 + 1, lines := l2 }, [])

/-- `Editor::interpret`: in Command mode parse (a parse panic aborts) and
execute; in Insert mode a lone `.` returns to Command mode, any other line
is `Vec::insert`ed at the cursor (panicking if the cursor is past the
end) and the cursor advances. -/
def Editor.interpret (fs : FS) (e : Editor) (input : List Char) :
    POutcome (Editor × List Event) :=
  match e.mode with
  | .command =>
    match Command.parse input with
    | .err msg => .err msg
    | .panic msg => .panic msg
    | .ok c => e.execute fs c
  | .insert =>
    if input = ['.'] then .ok ({ e with mode := .command }, [])
    else if e.current_address ≤ e.lines.length then
      .ok ({ e with
             lines := e.lines.insertIdx e.current_address input
             current_address := e.current_address + 1 }, [])
    else .panic "insertion index out of bounds"

/-- The read loop of `main`: each line is interpreted; a recoverable error
prints `?` and the loop continues with the state unchanged; a panic aborts
the process. -/
def Editor.runLoop (fs : FS) (e : Editor) :
    List (List Char) → POutcome (Editor × List Event)
  | [] => .ok (e, [])
  | i :: is =>
    match e.interpret fs i with
    | .panic m => .panic m
    | .err _ =>
      match e.runLoop fs is with
      | .ok (e2, evs) => .ok (e2, .out ['?'] :: evs)
      | r => r
    | .ok (e2, evs) =>
      match e2.runLoop fs is with
      | .ok (e3, evs2) => .ok (e3, evs ++ evs2)
      | r => r

/-- A file system with no readable files and no writable paths; used to
close universally quantified statements. -/
def noFS : FS := ⟨fun _ => none, fun _ => false⟩

/-- The cursor invariant claimed by the specification:
`1 ≤ cursor ≤ len(buffer) + 1`. -/
def CursorInv (e : Editor) : Prop :=
  1 ≤ e.current_address ∧ e.current_address ≤ e.lines.length + 1

instance (e : Editor) : Decidable (CursorInv e) := by
  unfold CursorInv; infer_instance

/-- Propositional equality of `Except` values is decidable when it is on
both components. -/
instance {ε α : Type} [DecidableEq ε] [DecidableEq α] :
    DecidableEq (Except ε α) := fun x y =>
  match x, y with
  | .ok a, .ok b =>
    if h : a = b then isTrue (by rw [h])
    else isFalse (by intro hh; cases hh; exact h rfl)
  | .error a, .error b =>
    if h : a = b then isTrue (by rw [h])
    else isFalse (by intro hh; cases hh; exact h rfl)
  | .ok _, .error _ => isFalse (by intro hh; cases hh)
  | .error _, .ok _ => isFalse (by intro hh; cases hh)

/-- A 5-line buffer as loaded from a file (cursor = length). -/
def ed5 : Editor :=
  ⟨5, [['1'], ['2'], ['3'], ['4'], ['5']], none, .command⟩

/-- Fixture for C6: a 2-line buffer. -/
def edAB2 : Editor := ⟨1, [['a'], ['b']], none, .command⟩

/-- Fixture for C4: a file system whose every path reads as the two lines
`a`, `b`. -/
def fsAB : FS := ⟨fun _ => some [['a'], ['b']], fun _ => false⟩

/-- Fixture for C4: the editor as loaded from `fsAB` (cursor = length 2). -/
def edAB : Editor := ⟨2, [['a'], ['b']], some ['f'], .command⟩

/-- Fixture for C8's witness: a file system where every write succeeds. -/
def fsW : FS := ⟨fun _ => none, fun _ => true⟩

/-- The command kinds for which the amended cursor-invariant preservation
holds: PrintAndSet, Print, Append, Edit and Write.  Insert and Change set
the cursor to the 0-based range start (0 for line 1) and Delete keeps the
1-based range end across the buffer shrink, so those three can violate the
claimed invariant. -/
def CommandToken.invSafe : CommandToken → Bool
  | .printAndSet => true
  | .print => true
  | .edit _ => true
  | .write _ => true
  | .append => true
  | .insert => false
  | .change => false
  | .delete => false

/-- Fixture for C3: a file system whose every path reads as the three
lines `a`, `b`, `c`. -/
def fs3 : FS := ⟨fun _ => some [['a'], ['b'], ['c']], fun _ => false⟩

/-- Joining a one-element list of lines is that line. -/
theorem intercalate_single (sep x : List Char) :
    List.intercalate sep [x] = x := by
  simp [List.intercalate]

/-- C1: the spec demands that `3,1p` on a 5-line buffer must not panic and
settle as an error or an empty selection.  The code instead panics: both
endpoints pass validation individually, the resolved 0-based range is
`2..=0`, and `self.lines[2..=0]` is an out-of-order slice index, which
aborts the process. -/
theorem C1_reversed_range_panics :
    (1 ≤ 3 ∧ 3 ≤ ed5.lines.length ∧ 1 ≤ 1 ∧ 1 ≤ ed5.lines.length) ∧
    ed5.interpret noFS ('3' :: ',' :: '1' :: 'p' :: []) =
      .panic "slice index out of bounds" := by decide

/-- C2: the spec says characters left unconsumed after the verb are a
recoverable parse error (`?`, loop continues).  The code instead reaches
the `unreachable!` in `Command::parse`, so `px` panics and the read loop
aborts rather than printing `?`. -/
theorem C2_trailing_chars_panic :
    Command.parse ('p' :: 'x' :: []) =
      .panic "Entire stream should be consumed on successful parsed" ∧
    Editor.blank.runLoop noFS [('p' :: 'x' :: [])] =
      .panic "Entire stream should be consumed on successful parsed" := by
  decide

/-- C4 counterexample: from buffer `["a","b"]` with cursor 3 the command
`a` does not succeed: its default range `(3,3)` fails validation
(`3 > len = 2`), so it returns the out-of-bounds error instead of entering
Insert mode.  (The code sets the cursor to `len`, not `len+1`, after a
load, so cursor 3 is not the after-load state either.) -/
theorem C4_cursor3_append_fails :
    (⟨3, [['a'], ['b']], none, .command⟩ : Editor).interpret noFS ['a'] =
      .err "Out of bounds" := by decide

/-- C4 amended: after loading `["a","b"]` the cursor is 2 (the buffer
length); `a` with no address then succeeds, entering Insert mode with the
cursor unchanged at 2, and feeding `x` then `.` yields buffer
`["a","b","x"]`, mode Command, cursor 3. -/
theorem C4_amended_append_scenario :
    Editor.from_file fsAB ['f'] = .ok edAB ∧
    edAB.current_address = 2 ∧
    edAB.interpret fsAB ['a'] = .ok ({ edAB with mode := .insert }, []) ∧
    edAB.runLoop fsAB [['a'], ['x'], ['.']] =
      .ok (⟨3, [['a'], ['b'], ['x']], some ['f'], .command⟩, []) := by decide

/-- C7 counterexample: bare `e` is not a parse error; it parses as
`Edit(None)` (path resolution is deferred to execution, as for `w`). -/
theorem C7_bare_e_parses :
    Command.parse ['e'] = .ok ⟨none, .edit none⟩ := by decide

/-- C7 amended: for the verb `e` the path argument is optional at parse
time: bare `e` parses as `Edit(None)`; a non-whitespace character directly
after the verb is a parse error; after one whitespace character all further
leading whitespace is consumed and the non-empty remainder is the path
(whitespace with nothing after it is a parse error). -/
theorem C7_amended_edit_argument :
    CommandToken.parse ['e'] = .ok (.edit none, []) ∧
    (∀ (c : Char) (rest : List Char), c.isWhitespace = false →
      CommandToken.parse ('e' :: c :: rest) =
        .error "Expected space after command") ∧
    (∀ (w : Char) (tail : List Char), w.isWhitespace = true →
      CommandToken.parse ('e' :: w :: tail) =
        match tail.dropWhile Char.isWhitespace with
        | [] => .error "Missing argument for command"
        | arg => .ok (.edit (some arg), [])) := by
  refine ⟨by decide, ?_, ?_⟩
  · intro c rest h
    simp [CommandToken.parse, swallow, h, Bind.bind, Except.bind]
  · intro w tail h
    simp only [CommandToken.parse, swallow, h, if_true]
    cases htail : tail.dropWhile Char.isWhitespace <;>
      simp [htail, Bind.bind, Except.bind]

/-- C7 witness: the amended theorem applied at `e f`. -/
theorem C7_amended_witness :
    CommandToken.parse ('e' :: ' ' :: 'f' :: []) =
      match (['f'] : List Char).dropWhile Char.isWhitespace with
      | [] => .error "Missing argument for command"
      | arg => .ok (.edit (some arg), []) :=
  C7_amended_edit_argument.2.2 ' ' ['f'] (by decide)

/-- C10: on an empty buffer, `w` with no explicit address resolves its
default whole-buffer range to `(1, 0)`; endpoint validation fails
(`1 ≤ 0` is false) and the command returns the out-of-bounds error before
any path resolution or file write, so no `fsWrite` event is ever produced
and the editor state is untouched. -/
theorem C10_empty_buffer_write_rejected (fs : FS) (e : Editor)
    (p? : Option (List Char)) (h : e.lines = []) :
    e.execute fs ⟨none, .write p?⟩ = .err "Out of bounds" := by
  simp [Editor.execute, Editor.resolve_address, Editor.validate_pair, h]

/-- C10 witness: the blank editor cannot write. -/
theorem C10_witness :
    Editor.blank.execute noFS ⟨none, .write none⟩ = .err "Out of bounds" :=
  C10_empty_buffer_write_rejected noFS Editor.blank none rfl

/-- C9: `Edit` is atomic.  When no path is available or the load fails the
command returns an error and no field of the editor is touched (the read
loop keeps the old state); on success the buffer, cursor, mode and default
filename are wholly replaced by the freshly loaded state, the cursor being
the new buffer length and the mode `Command`. -/
theorem C9_edit_atomic (fs : FS) (e : Editor) (a? : Option Address)
    (p? : Option (List Char)) (r : Nat × Nat)
    (hres : e.resolve_address ⟨a?, .edit p?⟩ = .ok r) :
    (p?.orElse (fun _ => e.default_filename) = none →
      e.execute fs ⟨a?, .edit p?⟩ = .err "Missing path to write") ∧
    (∀ path, p?.orElse (fun _ => e.default_filename) = some path →
      fs.read path = none →
      e.execute fs ⟨a?, .edit p?⟩ = .err "Failed to open file") ∧
    (∀ path ls, p?.orElse (fun _ => e.default_filename) = some path →
      fs.read path = some ls →
      e.execute fs ⟨a?, .edit p?⟩ =
        .ok (⟨ls.length, ls, some path, .command⟩, [])) := by
  obtain ⟨s0, e0⟩ := r
  refine ⟨?_, ?_, ?_⟩
  · intro hp
    simp [Editor.execute, hres, hp]
  · intro path hp hr
    simp [Editor.execute, hres, hp, Editor.from_file, hr]
  · intro path ls hp hr
    simp [Editor.execute, hres, hp, Editor.from_file, hr]

/-- C9 witness: the blank editor with no argument and no remembered
filename fails with the missing-path error. -/
theorem C9_witness :
    Editor.blank.execute noFS ⟨none, .edit none⟩ =
      .err "Missing path to write" :=
  (C9_edit_atomic noFS Editor.blank none none (USIZE_MAX, USIZE_MAX)
    rfl).1 rfl

/-- C8: with buffer `["a","b","c"]`, `w` with no address and a remembered
path `p` that accepts the write resolves the default whole-buffer range,
writes exactly the bytes `a\nb\nc\n` (lines joined by newline plus the
appended trailing newline), prints the written byte count 6, and keeps the
remembered default filename at the path used. -/
theorem C8_write_default (fs : FS) (p : List Char) (cur : Nat)
    (hw : fs.writeOk p = true) :
    (⟨cur, [['a'], ['b'], ['c']], some p, .command⟩ : Editor).interpret fs
        ['w'] =
      .ok (⟨cur, [['a'], ['b'], ['c']], some p, .command⟩,
        [.fsWrite p ['a', '\n', 'b', '\n', 'c', '\n'], .outNum 6]) := by
  have h1 : Command.parse ['w'] = .ok ⟨none, .write none⟩ := by decide
  have hres : (⟨cur, [['a'], ['b'], ['c']], some p, .command⟩ : Editor).resolve_address
      ⟨none, .write none⟩ = .ok (0, 2) := rfl
  have hex : (⟨cur, [['a'], ['b'], ['c']], some p, .command⟩ : Editor).execute
      fs ⟨none, .write none⟩ =
      .ok (⟨cur, [['a'], ['b'], ['c']], some p, .command⟩,
        [.fsWrite p ['a', '\n', 'b', '\n', 'c', '\n'], .outNum 6]) := by
    unfold Editor.execute
    rw [hres]
    simp [Option.orElse, sliceInclusive, List.intercalate, utf8Len, hw]
    decide
  simp only [Editor.interpret, h1, hex]

/-- C8 witness: the theorem at the path `f` on a file system whose writes
succeed. -/
theorem C8_witness :
    (⟨1, [['a'], ['b'], ['c']], some ['f'], .command⟩ : Editor).interpret
        fsW ['w'] =
      .ok (⟨1, [['a'], ['b'], ['c']], some ['f'], .command⟩,
        [.fsWrite ['f'] ['a', '\n', 'b', '\n', 'c', '\n'], .outNum 6]) :=
  C8_write_default fsW ['f'] 1 rfl

/-- C5 counterexample: on buffer `["a"]` (length 1) the command `1,$p`
leaves the cursor at 1, the buffer length, not at `len(buffer)+1 = 2` as
claimed: the Print arm assigns the 0-based range end plus one, which is
the 1-based end of the range. -/
theorem C5_cursor_not_len_plus_one :
    (⟨1, [['a']], none, .command⟩ : Editor).interpret noFS
        ('1' :: ',' :: '$' :: 'p' :: []) =
      .ok (⟨1, [['a']], none, .command⟩, [.out ['a']]) ∧
    (1 : Nat) ≠ ([['a']] : List (List Char)).length + 1 := by decide

/-- Parsing of the command line `1,$p`. -/
theorem parse_one_dollar_p :
    Command.parse ('1' :: ',' :: '$' :: 'p' :: []) =
      .ok ⟨some (.range (.number 1) .dollar), .print⟩ := by decide

/-- Executing `1,$p` on a non-empty buffer prints the whole buffer joined
by newlines and sets the cursor to the buffer length. -/
theorem exec_one_dollar_p (fs : FS) (e : Editor) (h : e.lines ≠ []) :
    e.execute fs ⟨some (.range (.number 1) .dollar), .print⟩ =
      .ok ({ e with current_address := e.lines.length },
        [.out (List.intercalate ['\n'] e.lines)]) := by
  have hL : 1 ≤ e.lines.length := List.length_pos.mpr h
  have hres : e.resolve_address ⟨some (.range (.number 1) .dollar), .print⟩ =
      .ok (0, e.lines.length - 1) := by
    show e.validate_pair (1, e.lines.length) = .ok (0, e.lines.length - 1)
    unfold Editor.validate_pair
    rw [if_pos]
    · norm_num
    · exact ⟨by omega, by omega, by omega, le_refl _⟩
  have hlen : e.lines.length - 1 + 1 = e.lines.length := by omega
  have hsl : sliceInclusive e.lines 0 (e.lines.length - 1) = some e.lines := by
    unfold sliceInclusive
    rw [if_pos]
    · rw [List.drop_zero, hlen, Nat.sub_zero, List.take_length]
    · omega
  unfold Editor.execute
  rw [hres]
  simp only [hsl, hlen]

/-- C5 amended: for every non-empty buffer in Command mode, `1,$p`
executed twice produces identical output both times, and after each
execution the cursor equals `len(buffer)` (not `len(buffer)+1`: the Print
arm sets the cursor to the 1-based end of the printed range). -/
theorem C5_amended_idempotent (fs : FS) (e : Editor) (h : e.lines ≠ [])
    (hm : e.mode = .command) :
    ∃ evs,
      e.interpret fs ('1' :: ',' :: '$' :: 'p' :: []) =
        .ok ({ e with current_address := e.lines.length }, evs) ∧
      ({ e with current_address := e.lines.length } : Editor).interpret fs
          ('1' :: ',' :: '$' :: 'p' :: []) =
        .ok ({ e with current_address := e.lines.length }, evs) := by
  obtain ⟨ca, ls, df, m⟩ := e
  have hm2 : m = .command := hm
  subst hm2
  refine ⟨[.out (List.intercalate ['\n'] ls)], ?_, ?_⟩
  · show (⟨ca, ls, df, .command⟩ : Editor).execute fs
        ⟨some (.range (.number 1) .dollar), .print⟩ = _
    rw [exec_one_dollar_p fs ⟨ca, ls, df, .command⟩ h]
  · show (⟨ls.length, ls, df, .command⟩ : Editor).execute fs
        ⟨some (.range (.number 1) .dollar), .print⟩ = _
    rw [exec_one_dollar_p fs ⟨ls.length, ls, df, .command⟩ h]

/-- C5 witness: the amended theorem at the one-line buffer `["a"]`. -/
theorem C5_witness :
    ∃ evs,
      (⟨1, [['a']], none, .command⟩ : Editor).interpret noFS
          ('1' :: ',' :: '$' :: 'p' :: []) =
        .ok (⟨1, [['a']], none, .command⟩, evs) ∧
      (⟨1, [['a']], none, .command⟩ : Editor).interpret noFS
          ('1' :: ',' :: '$' :: 'p' :: []) =
        .ok (⟨1, [['a']], none, .command⟩, evs) :=
  C5_amended_idempotent noFS ⟨1, [['a']], none, .command⟩ (by decide) rfl

/-- C6 counterexample: on the explicitly resolved range `1,2` of a 2-line
buffer, PrintAndSet prints only the first line of the range
(`self.lines[*range.start()]`) while Print prints the whole range joined
by newlines, so the printed outputs differ; the cursor update is the same. -/
theorem C6_multiline_outputs_differ :
    edAB2.execute noFS ⟨some (.range (.number 1) (.number 2)), .printAndSet⟩ =
      .ok (⟨2, [['a'], ['b']], none, .command⟩, [.out ['a']]) ∧
    edAB2.execute noFS ⟨some (.range (.number 1) (.number 2)), .print⟩ =
      .ok (⟨2, [['a'], ['b']], none, .command⟩, [.out ['a', '\n', 'b']]) ∧
    ([Event.out ['a']] : List Event) ≠ [Event.out ['a', '\n', 'b']] := by
  decide

/-- C6 amended: for every editor state and explicit address, whenever both
PrintAndSet and Print succeed on it they perform the identical state
(cursor) update; the printed output agrees exactly when the resolved range
is a single line — PrintAndSet prints only the line at the range start. -/
theorem C6_amended_print_cursor (fs : FS) (e : Editor) (a : Address)
    (e1 e2 : Editor) (v1 v2 : List Event)
    (h1 : e.execute fs ⟨some a, .printAndSet⟩ = .ok (e1, v1))
    (h2 : e.execute fs ⟨some a, .print⟩ = .ok (e2, v2)) :
    e1 = e2 ∧
    (∀ r, e.resolve_address ⟨some a, .print⟩ = .ok r → r.1 = r.2 →
      v1 = v2) := by
  have hsame : e.resolve_address ⟨some a, .printAndSet⟩ =
      e.resolve_address ⟨some a, .print⟩ := by cases a <;> rfl
  unfold Editor.execute at h1 h2
  rw [hsame] at h1
  cases hres : e.resolve_address ⟨some a, .print⟩ with
  | error msg =>
    rw [hres] at h2
    simp at h2
  | ok r =>
    obtain ⟨s0, e0⟩ := r
    rw [hres] at h1 h2
    simp only [] at h1 h2
    cases hidx : e.lines[s0]? with
    | none => rw [hidx] at h1; simp at h1
    | some line =>
      rw [hidx] at h1
      cases hsl : sliceInclusive e.lines s0 e0 with
      | none => rw [hsl] at h2; simp at h2
      | some sel =>
        rw [hsl] at h2
        simp only [POutcome.ok.injEq, Prod.mk.injEq] at h1 h2
        obtain ⟨he1, hv1⟩ := h1
        obtain ⟨he2, hv2⟩ := h2
        constructor
        · rw [← he1, ← he2]
        · intro r hr hre
          injection hr with hr'
          subst hr'
          simp only [] at hre
          subst hre
          obtain ⟨hlt, hline⟩ := List.getElem?_eq_some_iff.mp hidx
          unfold sliceInclusive at hsl
          rw [if_pos] at hsl
          · injection hsl with hsl'
            rw [List.drop_eq_getElem_cons hlt] at hsl'
            have htake : (e.lines[s0] :: e.lines.drop (s0 + 1)).take
                (s0 + 1 - s0) = [e.lines[s0]] := by
              have : s0 + 1 - s0 = 1 := by omega
              rw [this]
              simp only [List.take_succ_cons, List.take_zero]
            rw [htake] at hsl'
            rw [← hv1, ← hv2, ← hsl', intercalate_single, hline]
          · exact ⟨by omega, by omega⟩

/-- C6 witness: the amended theorem at the single-line address `1` on a
2-line buffer. -/
theorem C6_witness :
    edAB2 = edAB2 ∧
    (∀ r, edAB2.resolve_address ⟨some (.single (.number 1)), .print⟩ =
        .ok r → r.1 = r.2 →
      ([Event.out ['a']] : List Event) = [Event.out ['a']]) :=
  C6_amended_print_cursor noFS edAB2 (.single (.number 1)) edAB2 edAB2
    [Event.out ['a']] [Event.out ['a']] (by decide) (by decide)

/-- A successful endpoint validation bounds both 0-based endpoints by the
buffer length. -/
theorem validate_pair_ok (e : Editor) (p r : Nat × Nat)
    (h : e.validate_pair p = .ok r) :
    r.1 + 1 ≤ e.lines.length ∧ r.2 + 1 ≤ e.lines.length := by
  unfold Editor.validate_pair at h
  split at h
  · rename_i hc
    injection h with h'
    subst h'
    obtain ⟨h1, h2, h3, h4⟩ := hc
    exact ⟨by omega, by omega⟩
  · cases h

/-- For every command kind other than `Edit`, a successfully resolved
range went through endpoint validation, so both 0-based endpoints are
below the buffer length. -/
theorem resolve_ok_bounds (e : Editor) (c : Command) (s0 e0 : Nat)
    (hk : ∀ p, c.kind ≠ .edit p)
    (h : e.resolve_address c = .ok (s0, e0)) :
    s0 + 1 ≤ e.lines.length ∧ e0 + 1 ≤ e.lines.length := by
  obtain ⟨a?, k⟩ := c
  unfold Editor.resolve_address at h
  cases a? with
  | none =>
    cases k with
    | printAndSet => exact validate_pair_ok e _ _ h
    | print => exact validate_pair_ok e _ _ h
    | edit p => exact absurd rfl (hk p)
    | write p => exact validate_pair_ok e _ _ h
    | append => exact validate_pair_ok e _ _ h
    | insert => exact validate_pair_ok e _ _ h
    | change => exact validate_pair_ok e _ _ h
    | delete => exact validate_pair_ok e _ _ h
  | some a =>
    cases a with
    | single t => exact validate_pair_ok e _ _ h
    | range s t => exact validate_pair_ok e _ _ h

/-- A successful load whose file system never produces an empty line list
satisfies the cursor invariant. -/
theorem from_file_inv (fs : FS) (path : List Char) (ed : Editor)
    (hfs : ∀ p l, fs.read p = some l → l ≠ [])
    (h : Editor.from_file fs path = .ok ed) : CursorInv ed := by
  unfold Editor.from_file at h
  cases hr : fs.read path with
  | none => rw [hr] at h; cases h
  | some ls =>
    rw [hr] at h
    injection h with h'
    subst h'
    exact ⟨List.length_pos.mpr (hfs path ls hr), Nat.le_succ _⟩

/-- C3 counterexample: the state loaded from a 3-line file satisfies the
invariant, but one `2,3d` (a reachable multi-line Delete) leaves cursor 3
with a 1-line buffer, violating `cursor ≤ len(buffer)+1`: the Delete arm
stores the 1-based range end as cursor and only then drains the lines. -/
theorem C3_delete_breaks_invariant :
    Editor.from_file fs3 ['f'] =
      .ok ⟨3, [['a'], ['b'], ['c']], some ['f'], .command⟩ ∧
    CursorInv ⟨3, [['a'], ['b'], ['c']], some ['f'], .command⟩ ∧
    (⟨3, [['a'], ['b'], ['c']], some ['f'], .command⟩ : Editor).interpret fs3
        ('2' :: ',' :: '3' :: 'd' :: []) =
      .ok (⟨3, [['a']], some ['f'], .command⟩, []) ∧
    ¬ CursorInv ⟨3, [['a']], some ['f'], .command⟩ := by decide

/-- C3 amended: the invariant `1 ≤ cursor ≤ len(buffer)+1` holds for the
blank initial state and for any state loaded from a non-empty file, is
preserved by insert-mode line absorption, and is preserved by execution of
PrintAndSet, Print, Append, Write and (when no loaded file is empty) Edit.
It is not preserved in general by Delete, which keeps the 1-based range
end as the cursor across the buffer shrink (see the counterexample), nor
by Insert/Change addressed at line 1 (cursor becomes 0), nor by loading an
empty file (cursor 0). -/
theorem C3_amended_invariant :
    CursorInv Editor.blank ∧
    (∀ fs path ed, Editor.from_file fs path = .ok ed → ed.lines ≠ [] →
      CursorInv ed) ∧
    (∀ fs e c e2 evs, (∀ p l, fs.read p = some l → l ≠ []) →
      CursorInv e → c.kind.invSafe = true →
      e.execute fs c = .ok (e2, evs) → CursorInv e2) ∧
    (∀ fs e input e2 evs, e.mode = .insert → CursorInv e →
      e.interpret fs input = .ok (e2, evs) → CursorInv e2) := by
  refine ⟨by decide, ?_, ?_, ?_⟩
  · intro fs path ed h hne
    unfold Editor.from_file at h
    cases hr : fs.read path with
    | none => rw [hr] at h; cases h
    | some ls =>
      rw [hr] at h
      injection h with h'
      subst h'
      exact ⟨List.length_pos.mpr hne, Nat.le_succ _⟩
  · intro fs e c e2 evs hfs hinv hsafe hex
    obtain ⟨a?, k⟩ := c
    unfold Editor.execute at hex
    cases hres : Editor.resolve_address e ⟨a?, k⟩ with
    | error msg => rw [hres] at hex; simp at hex
    | ok r =>
      obtain ⟨s0, e0⟩ := r
      rw [hres] at hex
      obtain ⟨hi1, hi2⟩ := hinv
      cases k with
      | printAndSet =>
        have hb := resolve_ok_bounds e ⟨a?, .printAndSet⟩ s0 e0
          (fun p hp => CommandToken.noConfusion hp) hres
        simp only [] at hex
        cases hidx : e.lines[s0]? with
        | none => rw [hidx] at hex; simp at hex
        | some line =>
          rw [hidx] at hex
          simp only [POutcome.ok.injEq, Prod.mk.injEq] at hex
          obtain ⟨h1, _⟩ := hex
          subst h1
          exact ⟨Nat.le_add_left 1 e0,
            by show e0 + 1 ≤ e.lines.length + 1; omega⟩
      | print =>
        have hb := resolve_ok_bounds e ⟨a?, .print⟩ s0 e0
          (fun p hp => CommandToken.noConfusion hp) hres
        simp only [] at hex
        cases hsl : sliceInclusive e.lines s0 e0 with
        | none => rw [hsl] at hex; simp at hex
        | some sel =>
          rw [hsl] at hex
          simp only [POutcome.ok.injEq, Prod.mk.injEq] at hex
          obtain ⟨h1, _⟩ := hex
          subst h1
          exact ⟨Nat.le_add_left 1 e0,
            by show e0 + 1 ≤ e.lines.length + 1; omega⟩
      | edit p? =>
        simp only [] at hex
        cases hp : p?.orElse (fun _ => e.default_filename) with
        | none => rw [hp] at hex; simp at hex
        | some path =>
          rw [hp] at hex
          simp only [] at hex
          cases hf : Editor.from_file fs path with
          | error msg => rw [hf] at hex; simp at hex
          | ok ed2 =>
            rw [hf] at hex
            simp only [POutcome.ok.injEq, Prod.mk.injEq] at hex
            obtain ⟨h1, _⟩ := hex
            subst h1
            exact from_file_inv fs path ed2 hfs hf
      | write p? =>
        simp only [] at hex
        cases hp : p?.orElse (fun _ => e.default_filename) with
        | none => rw [hp] at hex; simp at hex
        | some path =>
          rw [hp] at hex
          simp only [] at hex
          cases hsl : sliceInclusive e.lines s0 e0 with
          | none => rw [hsl] at hex; simp at hex
          | some sel =>
            rw [hsl] at hex
            simp only [] at hex
            split at hex
            · simp only [POutcome.ok.injEq, Prod.mk.injEq] at hex
              obtain ⟨h1, _⟩ := hex
              subst h1
              exact ⟨hi1, hi2⟩
            · simp at hex
      | append =>
        have hb := resolve_ok_bounds e ⟨a?, .append⟩ s0 e0
          (fun p hp => CommandToken.noConfusion hp) hres
        simp only [POutcome.ok.injEq, Prod.mk.injEq] at hex
        obtain ⟨h1, _⟩ := hex
        subst h1
        exact ⟨Nat.le_add_left 1 s0,
          by show s0 + 1 ≤ e.lines.length + 1; omega⟩
      | insert => simp [CommandToken.invSafe] at hsafe
      | change => simp [CommandToken.invSafe] at hsafe
      | delete => simp [CommandToken.invSafe] at hsafe
  · intro fs e input e2 evs hm hinv hint
    obtain ⟨hi1, hi2⟩ := hinv
    unfold Editor.interpret at hint
    rw [hm] at hint
    simp only [] at hint
    split at hint
    · simp only [POutcome.ok.injEq, Prod.mk.injEq] at hint
      obtain ⟨h1, _⟩ := hint
      subst h1
      exact ⟨hi1, hi2⟩
    · split at hint
      · rename_i hle
        simp only [POutcome.ok.injEq, Prod.mk.injEq] at hint
        obtain ⟨h1, _⟩ := hint
        subst h1
        refine ⟨Nat.le_add_left 1 e.current_address, ?_⟩
        show e.current_address + 1 ≤
          (e.lines.insertIdx e.current_address input).length + 1
        rw [List.length_insertIdx e.current_address e.lines hle]
        omega
      · simp at hint

/-- C3 witness: invariant preservation applied to `p` on a one-line
buffer. -/
theorem C3_witness : CursorInv ⟨1, [['a']], none, .command⟩ :=
  C3_amended_invariant.2.2.1 noFS ⟨1, [['a']], none, .command⟩
    ⟨none, .print⟩ ⟨1, [['a']], none, .command⟩ [.out ['a']]
    (fun p l h => Option.noConfusion h) (by decide) rfl (by decide)
